import Mathlib

/-!
Shallow embedding of `src/common/tools.py` (repository `SDN_mod`):
the running-statistics utility (`AverageMeter`), the progress reporter
(`ProgressMeter`), the top-k accuracy computation (`accuracy`) and the
train/evaluate epoch loops.

Real numbers of the Python code are modelled as rationals (`ℚ`);
Python exceptions (ZeroDivisionError, torch invalid-argument errors)
are modelled with `Option`, `none` meaning the call raises.
-/

namespace SDN

/-! ### Top-k accuracy (`accuracy`, tools.py lines 63-76) -/

/-- Embedding of `output.topk(maxk, 1, True, True)` restricted to one row:
the indices of the row sorted by descending score.  `mergeSort` is stable,
so ties in score keep the original (ascending) index order, one consistent
tie-break compatible with torch's implementation-defined one. -/
def sortedIdx (row : List ℚ) : List Nat :=
  ((row.enum).mergeSort (fun a b => decide (b.2 ≤ a.2))).map Prod.fst

/-- The `k` highest-scoring class indices of a score row, under the
tie-break order of `sortedIdx`. -/
def topkClasses (row : List ℚ) (k : Nat) : List Nat :=
  (sortedIdx row).take k

/-- Embedding of `accuracy(output, target, topk)` (tools.py lines 63-76).
`output` is the batch of score rows, `target` the integer labels.
`none` models a raised exception: an empty `topk` (Python `max(())`),
`maxk` exceeding a row length (`torch.topk` invalid argument),
a batch-size mismatch between `output` and `target` (`expand_as`),
or an empty batch (`100.0 / batch_size` ZeroDivisionError). -/
def accuracy (output : List (List ℚ)) (target : List Nat)
    (topk : List Nat) : Option (List ℚ) :=
  let maxk := topk.foldl Nat.max 0
  let batch_size := target.length
  if topk ≠ [] ∧ output.all (fun row => maxk ≤ row.length) ∧
      output.length = batch_size ∧ batch_size ≠ 0 then
    -- `_, pred = output.topk(maxk, 1, True, True)` : per-row top-maxk indices
    let pred := output.map (fun row => (sortedIdx row).take maxk)
    -- for each k: `correct[:k].reshape(-1).float().sum()` counts, over all
    -- examples, the matches of the label among the first k predictions,
    -- then `.mul_(100.0 / batch_size)`
    some (topk.map (fun k =>
      let correct_k : Nat :=
        ((pred.zip target).map (fun pt => (pt.1.take k).count pt.2)).sum
      (correct_k : ℚ) * (100 / (batch_size : ℚ))))
  else none

/-- Number of examples whose true label is among the `k` highest-scoring
classes (the spec-side count for the claims about `accuracy`). -/
def topkHits (output : List (List ℚ)) (target : List Nat) (k : Nat) : Nat :=
  (output.zip target).countP (fun pt => decide (pt.2 ∈ topkClasses pt.1 k))

/-! ### Running statistics (`AverageMeter`, tools.py lines 21-43) -/

/-- Python format specifications of the repository (`:f`, `:6.2f`, `:3.2f`):
a minimum field width and a number of digits after the decimal point. -/
structure FmtSpec where
  width : Nat
  prec : Nat
deriving DecidableEq, Repr

/-- State of an `AverageMeter`.  Numeric fields are rationals. -/
structure AverageMeter where
  name : String
  fmt : FmtSpec
  val : ℚ
  avg : ℚ
  sum : ℚ
  count : ℚ
deriving DecidableEq, Repr

namespace AverageMeter

/-- `reset()`: zero the numeric fields. -/
def reset (m : AverageMeter) : AverageMeter :=
  { m with val := 0, avg := 0, sum := 0, count := 0 }

/-- `__init__(name, fmt)`: store name and format, then `reset()`. -/
def init (name : String) (fmt : FmtSpec) : AverageMeter :=
  reset { name := name, fmt := fmt, val := 0, avg := 0, sum := 0, count := 0 }

/-- `update(val, n=1)`: `self.val = val; self.sum += val * n;
self.count += n; self.avg = self.sum / self.count`.
`none` models the ZeroDivisionError raised when the new count is zero. -/
def update (m : AverageMeter) (v : ℚ) (n : ℚ := 1) : Option AverageMeter :=
  if m.count + n = 0 then none
  else some { m with val := v, sum := m.sum + v * n, count := m.count + n,
                     avg := (m.sum + v * n) / (m.count + n) }

/-- A finite sequence of `update` calls, left to right. -/
def applyUpdates (m : AverageMeter) (l : List (ℚ × ℚ)) : Option AverageMeter :=
  l.foldlM (fun s p => s.update p.1 p.2) m

end AverageMeter

/-! ### Python fixed-point / decimal formatting used by the meters -/

/-- Left-pad a string with a character to a minimum width
(Python right-aligned field formatting). -/
def padLeft (c : Char) (w : Nat) (s : String) : String :=
  String.mk (List.replicate (w - s.length) c) ++ s

/-- `'{:Nd}'.format(n)`: decimal rendering right-aligned in a
space-padded field of width `w`. -/
def formatD (w : Nat) (n : Nat) : String :=
  padLeft ' ' w (toString n)

/-- Fixed-point rendering of a rational with `prec` digits after the
decimal point (the `f` presentation type), right-aligned in a
space-padded field of width `w`. -/
def formatF (w : Nat) (prec : Nat) (q : ℚ) : String :=
  let scaled : ℤ := round (|q| * (10 : ℚ) ^ prec)
  let intPart := scaled.toNat / 10 ^ prec
  let fracPart := scaled.toNat % 10 ^ prec
  let digits :=
    if prec = 0 then toString intPart
    else toString intPart ++ "." ++ padLeft '0' prec (toString fracPart)
  padLeft ' ' w ((if q < 0 ∧ scaled ≠ 0 then "-" else "") ++ digits)

/-- `AverageMeter.__str__`: `'{name} {avg:fmt}'`. -/
def AverageMeter.render (m : AverageMeter) : String :=
  m.name ++ " " ++ formatF m.fmt.width m.fmt.prec m.avg

/-! ### Progress reporting (`ProgressMeter`, tools.py lines 46-60) -/

/-- State of a `ProgressMeter`: total batch count, the tracked meters,
and the prefix string. -/
structure ProgressMeter where
  num_batches : Nat
  meters : List AverageMeter
  pfx : String

/-- `_get_batch_fmtstr(num_batches)` applied to a batch index:
`'[' + '{:Nd}' + '/' + '{:Nd}'.format(num_batches) + ']'` where
`N = len(str(num_batches // 1))`, then formatted at `batch`. -/
def batchFmtstr (num_batches : Nat) (batch : Nat) : String :=
  let num_digits := (toString (num_batches / 1)).length
  "[" ++ formatD num_digits batch ++ "/" ++ formatD num_digits num_batches ++ "]"

/-- `display(batch)`: the single printed line
`'\t'.join([prefix + batch_fmtstr.format(batch)] + [str(m) for m in meters])`.
The Python method only reads the meters; the embedding is a pure function
of the `ProgressMeter` state. -/
def ProgressMeter.display (pm : ProgressMeter) (batch : Nat) : String :=
  String.intercalate "\t"
    ((pm.pfx ++ batchFmtstr pm.num_batches batch) :: pm.meters.map AverageMeter.render)

/-! ### Epoch loops (`train` lines 79-120, `evaluate` lines 123-143)

The external collaborators are abstracted exactly as the spec prescribes:
the model is a function from an image batch to a batch of score rows, the
loss function maps scores and labels to a scalar.  An image is a tensor
whose first dimension is all that the loop ever inspects
(`images[0].size(0)`), so it is modelled as a list indexed by that
dimension.  The optimizer, gradient scaler and device transfers are
opaque; the loop records which collaborator calls it makes as a trace of
events.  Wall-clock time (the `Time`/`Data` meters) is external input and
is not modelled. -/

/-- One example's input tensor; its list length is its first dimension
(`size(0)`, the channel count of an image). -/
abbrev Image := List ℚ

/-- One `(images, labels)` batch from a data loader. -/
abbrev Batch := List Image × List Nat

/-- Collaborator calls made by the loop bodies. -/
inductive Event where
  | forward          -- `model(images)`
  | lossCompute      -- `ceriation(logist, labels)`
  | zeroGrad         -- `optimizer.zero_grad()`
  | scalerScale      -- `scaler.scale(loss).backward()` (amp path)
  | backward         -- `loss.backward()` (plain path)
  | scalerStepOpt    -- `scaler.step(optimizer)` (amp path)
  | scalerUpdate     -- `scaler.update()` (amp path)
  | optStep          -- `optimizer.step()` (plain path)
  | accuracyCall     -- `accuracy(logist, labels, topk=(1, 5))`
deriving DecidableEq, Repr

/-- The events that apply a parameter update through the optimizer:
`optimizer.step()` in the plain path, `scaler.step(optimizer)` in the
mixed-precision path. -/
def Event.isParamUpdate : Event → Bool
  | .scalerStepOpt => true
  | .optStep => true
  | _ => false

/-- Loop state carried across batches: the two result meters and the
trace of collaborator calls so far. -/
structure LoopState where
  losses : AverageMeter
  top1 : AverageMeter
  events : List Event
deriving DecidableEq, Repr

/-- The collaborator calls one `train` batch makes, in program order
(tools.py lines 96-115): forward pass and loss, then the gradient step
of the selected branch, then the accuracy computation. -/
def trainBatchEvents (amp : Bool) : List Event :=
  [.forward, .lossCompute] ++
    (if amp then [.zeroGrad, .scalerScale, .scalerStepOpt, .scalerUpdate]
     else [.zeroGrad, .backward, .optStep]) ++
    [.accuracyCall]

/-- The collaborator calls one `evaluate` batch makes (tools.py lines
132-135): forward pass, loss, accuracy — no gradient or optimizer call. -/
def evalBatchEvents : List Event :=
  [.forward, .lossCompute, .accuracyCall]

/-- Body of the `train` loop for one batch (tools.py lines 91-116).
`amp` selects the mixed-precision branch.  `none` models an exception
(from `accuracy` or a meter update) aborting the epoch. -/
def trainStep (model : List Image → List (List ℚ))
    (ceriation : List (List ℚ) → List Nat → ℚ) (amp : Bool)
    (s : LoopState) (b : Batch) : Option LoopState := do
  let images := b.1
  let labels := b.2
  let logist := model images
  let loss := ceriation logist labels
  -- `acc1, acc5 = accuracy(logist, labels, topk=(1, 5))`
  let accs ← accuracy logist labels [1, 5]
  let acc1 := accs.getD 0 0
  -- `images[0].size(0)`: the first dimension of the FIRST EXAMPLE
  let n : ℚ := ((images.getD 0 []).length : ℚ)
  let losses' ← s.losses.update loss n
  let top1' ← s.top1.update acc1 n
  pure { losses := losses', top1 := top1',
         events := s.events ++ trainBatchEvents amp }

/-- The `train` loop: meters created with format `:6.2f`, one `trainStep`
per batch, returning the final loop state (from which the function returns
`(losses.avg, top1.avg)`). -/
def train (model : List Image → List (List ℚ))
    (ceriation : List (List ℚ) → List Nat → ℚ) (amp : Bool)
    (batches : List Batch) : Option LoopState :=
  batches.foldlM (trainStep model ceriation amp)
    { losses := AverageMeter.init "Loss" ⟨6, 2⟩,
      top1 := AverageMeter.init "Acc@1" ⟨6, 2⟩,
      events := [] }

/-- Body of the `evaluate` loop for one batch (tools.py lines 128-138):
forward pass, loss, accuracy and meter updates only — no gradient or
optimizer calls. -/
def evaluateStep (model : List Image → List (List ℚ))
    (ceriation : List (List ℚ) → List Nat → ℚ)
    (s : LoopState) (b : Batch) : Option LoopState := do
  let images := b.1
  let labels := b.2
  let logist := model images
  let loss := ceriation logist labels
  let accs ← accuracy logist labels [1, 5]
  let acc1 := accs.getD 0 0
  let n : ℚ := ((images.getD 0 []).length : ℚ)
  let losses' ← s.losses.update loss n
  let top1' ← s.top1.update acc1 n
  pure { losses := losses', top1 := top1',
         events := s.events ++ evalBatchEvents }

/-- The `evaluate` loop state: meters created with format `:3.2f`,
one `evaluateStep` per batch. -/
def evaluateLoop (model : List Image → List (List ℚ))
    (ceriation : List (List ℚ) → List Nat → ℚ)
    (batches : List Batch) : Option LoopState :=
  batches.foldlM (evaluateStep model ceriation)
    { losses := AverageMeter.init "Loss" ⟨3, 2⟩,
      top1 := AverageMeter.init "Acc@1" ⟨3, 2⟩,
      events := [] }

/-- `evaluate(model, eva_loader, ceriation, prefix, ignore=-1)`:
runs the evaluate loop and returns `(losses.avg, top1.avg)`.
`pfx` only affects printing and `ignore` is never read. -/
def evaluate (model : List Image → List (List ℚ))
    (ceriation : List (List ℚ) → List Nat → ℚ)
    (batches : List Batch) (pfx : String) (ignore : ℤ := -1) :
    Option (ℚ × ℚ) :=
  (evaluateLoop model ceriation batches).map fun s => (s.losses.avg, s.top1.avg)

/-! ### Sanity checks against the spec's concrete scenarios -/

example : accuracy [[(1:ℚ)/10, 9/10], [8/10, 2/10]] [1, 0] [1, 2] =
    some [100, 100] := by with_unfolding_all decide

example : accuracy [[(9:ℚ)/10, 1/10], [8/10, 2/10]] [1, 0] [1] =
    some [50] := by with_unfolding_all decide

example : accuracy [[(1:ℚ), 2], [3, 4]] [0, 1] [3] = none := by
  with_unfolding_all decide

example : formatF 3 2 ((1:ℚ)/4) = "0.25" := by with_unfolding_all decide
example : formatF 3 2 ((913:ℚ)/10) = "91.30" := by with_unfolding_all decide
example : formatF 6 2 ((1:ℚ)/4) = "  0.25" := by with_unfolding_all decide
example : batchFmtstr 100 7 = "[  7/100]" := by with_unfolding_all decide

/-! ### Lemmas about `AverageMeter` -/

/-- A successful sequence of positive-weight updates from any state with
nonnegative count: sums and counts accumulate, and the final average is
`sum / count` as soon as at least one update happened. -/
theorem applyUpdates_pos (l : List (ℚ × ℚ)) :
    ∀ m : AverageMeter, 0 ≤ m.count → (∀ p ∈ l, 0 < p.2) →
    ∃ m', m.applyUpdates l = some m' ∧
      m'.name = m.name ∧ m'.fmt = m.fmt ∧
      m'.sum = m.sum + (l.map fun p => p.1 * p.2).sum ∧
      m'.count = m.count + (l.map Prod.snd).sum ∧
      (l ≠ [] → m'.avg = m'.sum / m'.count) ∧
      (l = [] → m' = m) := by
  induction l with
  | nil =>
    intro m _ _
    exact ⟨m, rfl, rfl, rfl, by simp, by simp, fun h => absurd rfl h,
      fun _ => rfl⟩
  | cons p t ih =>
    intro m hm hpos
    obtain ⟨v, w⟩ := p
    have hw : 0 < w := hpos (v, w) (List.mem_cons_self _ _)
    have hcw : m.count + w ≠ 0 := by positivity
    set m₁ : AverageMeter :=
      { m with val := v, sum := m.sum + v * w, count := m.count + w,
               avg := (m.sum + v * w) / (m.count + w) } with hm₁
    have hupd : m.update v w = some m₁ := by
      simp [AverageMeter.update, hcw]
    have hstep : m.applyUpdates ((v, w) :: t) = m₁.applyUpdates t := by
      simp [AverageMeter.applyUpdates, List.foldlM, hupd]
    have hm₁count : 0 ≤ m₁.count := by
      simp only [hm₁]
      positivity
    obtain ⟨m', hrun, hname, hfmt, hsum, hcount, havg, hemp⟩ :=
      ih m₁ hm₁count (fun q hq => hpos q (List.mem_cons_of_mem _ hq))
    refine ⟨m', by rw [hstep]; exact hrun, hname, hfmt, ?_, ?_, ?_, ?_⟩
    · simp only [hsum, hm₁, List.map_cons, List.sum_cons]; ring
    · simp only [hcount, hm₁, List.map_cons, List.sum_cons]; ring
    · intro _
      rcases List.eq_nil_or_concat t with ht | _
      · subst ht
        rw [hemp rfl]
      · exact havg (by rintro rfl; simp at *)
    · intro h; exact absurd h (List.cons_ne_nil _ _)

/-- **C2.** For every finite sequence of positive-weight updates on a
freshly constructed meter, the run succeeds and the final `avg` is the
weighted mean `Σ(value·weight) / Σ(weight)`; each single update performs
exactly `sum += v*n; count += n; avg = sum/count; val = v`; and `reset()`
followed by an update coincides with the update on a fresh meter. -/
theorem averageMeter_weighted_mean (name : String) (fmt : FmtSpec)
    (l : List (ℚ × ℚ)) (hpos : ∀ p ∈ l, 0 < p.2) :
    (∃ m', (AverageMeter.init name fmt).applyUpdates l = some m' ∧
        m'.avg = (l.map fun p => p.1 * p.2).sum / (l.map Prod.snd).sum ∧
        m'.sum = (l.map fun p => p.1 * p.2).sum ∧
        m'.count = (l.map Prod.snd).sum) ∧
    (∀ (m : AverageMeter) (v n : ℚ), m.count + n ≠ 0 →
        m.update v n = some ({ m with
            val := v
            sum := m.sum + v * n
            count := m.count + n
            avg := (m.sum + v * n) / (m.count + n) } : AverageMeter)) ∧
    (∀ (m : AverageMeter) (v n : ℚ),
        (m.reset).update v n = (AverageMeter.init m.name m.fmt).update v n) := by
  refine ⟨?_, ?_, ?_⟩
  · obtain ⟨m', hrun, _, _, hsum, hcount, havg, hemp⟩ :=
      applyUpdates_pos l (AverageMeter.init name fmt) (le_refl 0) hpos
    have hsum' : m'.sum = (l.map fun p => p.1 * p.2).sum := by
      simpa [AverageMeter.init, AverageMeter.reset] using hsum
    have hcount' : m'.count = (l.map Prod.snd).sum := by
      simpa [AverageMeter.init, AverageMeter.reset] using hcount
    refine ⟨m', hrun, ?_, hsum', hcount'⟩
    rcases List.eq_nil_or_concat l with hl | _
    · subst hl
      rw [hemp rfl]
      simp [AverageMeter.init, AverageMeter.reset]
    · rw [havg (by rintro rfl; simp at *), hsum', hcount']
  · intro m v n hn
    simp [AverageMeter.update, hn]
  · intro m v n
    rfl

/-- Witness for C2 at the update sequence `[(3,1), (5,2)]` on a fresh
meter: the final average is `13/3`. -/
theorem averageMeter_weighted_mean_witness :
    ∃ m', (AverageMeter.init "Loss" ⟨6, 2⟩).applyUpdates [(3, 1), (5, 2)] =
        some m' ∧ m'.avg = 13 / 3 ∧ m'.sum = 13 ∧ m'.count = 3 := by
  obtain ⟨⟨m', hrun, havg, hsum, hcount⟩, -, -⟩ :=
    averageMeter_weighted_mean "Loss" ⟨6, 2⟩ [(3, 1), (5, 2)]
      (by intro p hp; fin_cases hp <;> norm_num)
  refine ⟨m', hrun, ?_, ?_, ?_⟩
  · rw [havg]; norm_num
  · rw [hsum]; norm_num
  · rw [hcount]; norm_num

/-- **C10.** `update(v, n)` raises a division-by-zero error exactly when
the new count `count + n` is zero, and otherwise succeeds with
`avg = (sum + v·n) / (count + n)`. -/
theorem averageMeter_update_div_by_zero (m : AverageMeter) (v n : ℚ) :
    (m.update v n = none ↔ m.count + n = 0) ∧
    (m.count + n ≠ 0 → ∃ m', m.update v n = some m' ∧
      m'.avg = (m.sum + v * n) / (m.count + n) ∧
      m'.sum = m.sum + v * n ∧ m'.count = m.count + n ∧ m'.val = v) := by
  constructor
  · constructor
    · intro h
      by_contra hne
      simp [AverageMeter.update, hne] at h
    · intro h
      simp [AverageMeter.update, h]
  · intro h
    refine ⟨({ m with
        val := v
        sum := m.sum + v * n
        count := m.count + n
        avg := (m.sum + v * n) / (m.count + n) } : AverageMeter),
      ?_, rfl, rfl, rfl, rfl⟩
    simp [AverageMeter.update, h]

/-- Witness for C10: `update(3, 0)` immediately after `reset()` raises,
while `update(3, 2)` on a fresh meter yields average 3. -/
theorem averageMeter_update_div_by_zero_witness :
    ((AverageMeter.init "x" ⟨6, 2⟩).update 3 0 = none) ∧
    (∃ m', (AverageMeter.init "x" ⟨6, 2⟩).update 3 2 = some m' ∧
      m'.avg = 3) := by
  constructor
  · exact (averageMeter_update_div_by_zero (AverageMeter.init "x" ⟨6, 2⟩) 3 0).1.mpr
      (by norm_num [AverageMeter.init, AverageMeter.reset])
  · obtain ⟨m', hm', havg, -, -, -⟩ :=
      (averageMeter_update_div_by_zero (AverageMeter.init "x" ⟨6, 2⟩) 3 2).2
        (by norm_num [AverageMeter.init, AverageMeter.reset])
    refine ⟨m', hm', ?_⟩
    rw [havg]
    norm_num [AverageMeter.init, AverageMeter.reset]

/-- **C9.** The result of `evaluate` does not depend on the `ignore`
argument: `ignore` is bound but never read by the function body. -/
theorem evaluate_independent_of_ignore
    (model : List Image → List (List ℚ))
    (ceriation : List (List ℚ) → List Nat → ℚ)
    (batches : List Batch) (pfx : String) (i₁ i₂ : ℤ) :
    evaluate model ceriation batches pfx i₁ =
      evaluate model ceriation batches pfx i₂ := rfl

/-! ### Lemmas about the epoch loops -/

/-- A successful `trainStep` appends exactly the batch's events. -/
theorem trainStep_events (model : List Image → List (List ℚ))
    (ceriation : List (List ℚ) → List Nat → ℚ) (amp : Bool)
    (s s' : LoopState) (b : Batch)
    (h : trainStep model ceriation amp s b = some s') :
    s'.events = s.events ++ trainBatchEvents amp := by
  simp only [trainStep, Option.bind_eq_bind, bind, Option.bind_eq_some] at h
  obtain ⟨accs, -, losses', -, top1', -, h⟩ := h
  simp only [pure, Option.some_inj] at h
  rw [← h]

/-- A successful `evaluateStep` appends exactly the batch's events. -/
theorem evaluateStep_events (model : List Image → List (List ℚ))
    (ceriation : List (List ℚ) → List Nat → ℚ)
    (s s' : LoopState) (b : Batch)
    (h : evaluateStep model ceriation s b = some s') :
    s'.events = s.events ++ evalBatchEvents := by
  simp only [evaluateStep, Option.bind_eq_bind, bind, Option.bind_eq_some] at h
  obtain ⟨accs, -, losses', -, top1', -, h⟩ := h
  simp only [pure, Option.some_inj] at h
  rw [← h]

/-- Each train batch contains exactly one parameter-update event,
in either branch. -/
theorem trainBatchEvents_one_step (amp : Bool) :
    (trainBatchEvents amp).countP Event.isParamUpdate = 1 := by
  cases amp <;> decide

/-- A successful train fold adds one parameter-update event per batch. -/
theorem train_fold_param_count (model : List Image → List (List ℚ))
    (ceriation : List (List ℚ) → List Nat → ℚ) (amp : Bool) :
    ∀ (batches : List Batch) (s₀ s : LoopState),
      List.foldlM (trainStep model ceriation amp) s₀ batches = some s →
      s.events.countP Event.isParamUpdate =
        s₀.events.countP Event.isParamUpdate + batches.length := by
  intro batches
  induction batches with
  | nil =>
    intro s₀ s h
    simp only [List.foldlM_nil, pure, Option.some_inj] at h
    subst h
    simp
  | cons b t ih =>
    intro s₀ s h
    rw [List.foldlM_cons] at h
    rcases h₁ : trainStep model ceriation amp s₀ b with _ | s₁
    · rw [h₁] at h; simp [bind] at h
    · rw [h₁] at h
      simp only [bind, Option.some_bind] at h
      have := ih s₁ s h
      rw [this, trainStep_events model ceriation amp s₀ s₁ b h₁,
        List.countP_append, trainBatchEvents_one_step]
      simp only [List.length_cons]
      omega

/-- A successful evaluate fold adds no parameter-update events. -/
theorem evaluate_fold_param_count (model : List Image → List (List ℚ))
    (ceriation : List (List ℚ) → List Nat → ℚ) :
    ∀ (batches : List Batch) (s₀ s : LoopState),
      List.foldlM (evaluateStep model ceriation) s₀ batches = some s →
      s.events.countP Event.isParamUpdate =
        s₀.events.countP Event.isParamUpdate := by
  intro batches
  induction batches with
  | nil =>
    intro s₀ s h
    simp only [List.foldlM_nil, pure, Option.some_inj] at h
    rw [← h]
  | cons b t ih =>
    intro s₀ s h
    rw [List.foldlM_cons] at h
    rcases h₁ : evaluateStep model ceriation s₀ b with _ | s₁
    · rw [h₁] at h; simp [bind] at h
    · rw [h₁] at h
      simp only [bind, Option.some_bind] at h
      rw [ih s₁ s h, evaluateStep_events model ceriation s₀ s₁ b h₁,
        List.countP_append]
      have h0 : evalBatchEvents.countP Event.isParamUpdate = 0 := by decide
      omega

/-- **C3.** Over a data source of `B` batches, the completed train loop
invokes the optimizer's parameter-update step exactly `B` times — once
per batch, in both the mixed-precision and the plain path — while the
evaluate loop invokes it zero times. -/
theorem epoch_optimizer_step_counts (model : List Image → List (List ℚ))
    (ceriation : List (List ℚ) → List Nat → ℚ) (amp : Bool)
    (batches : List Batch) (s s' : LoopState) :
    (train model ceriation amp batches = some s →
      s.events.countP Event.isParamUpdate = batches.length) ∧
    (evaluateLoop model ceriation batches = some s' →
      s'.events.countP Event.isParamUpdate = 0) := by
  constructor
  · intro h
    have := train_fold_param_count model ceriation amp batches _ s h
    simpa using this
  · intro h
    have := evaluate_fold_param_count model ceriation batches _ s' h
    simpa using this

/-- Witness for C3: a one-batch data source where both loops complete;
the train loop records one parameter update, the evaluate loop none. -/
theorem epoch_optimizer_step_counts_witness :
    ((train (fun _ => [[5, 4, 3, 2, 1]]) (fun _ _ => 1) true
        [([[0]], [0])]).map fun s => s.events.countP Event.isParamUpdate) =
      some 1 ∧
    ((evaluateLoop (fun _ => [[5, 4, 3, 2, 1]]) (fun _ _ => 1)
        [([[0]], [0])]).map fun s => s.events.countP Event.isParamUpdate) =
      some 0 := by
  constructor
  · have ht : (train (fun _ => [[(5:ℚ), 4, 3, 2, 1]]) (fun _ _ => 1) true
        [([[0]], [0])]).isSome = true := by with_unfolding_all decide
    obtain ⟨s, hs⟩ := Option.isSome_iff_exists.mp ht
    have hc := (epoch_optimizer_step_counts (fun _ => [[(5:ℚ), 4, 3, 2, 1]])
      (fun _ _ => 1) true [([[0]], [0])] s s).1 hs
    rw [hs]
    simpa using hc
  · have he : (evaluateLoop (fun _ => [[(5:ℚ), 4, 3, 2, 1]]) (fun _ _ => 1)
        [([[0]], [0])]).isSome = true := by with_unfolding_all decide
    obtain ⟨s', hs'⟩ := Option.isSome_iff_exists.mp he
    have hc := (epoch_optimizer_step_counts (fun _ => [[(5:ℚ), 4, 3, 2, 1]])
      (fun _ _ => 1) true [([[0]], [0])] s' s').2 hs'
    rw [hs']
    simpa using hc

/-- **C4 (code bug).** The train loop updates the loss and accuracy
meters with weight `images[0].size(0)` — the first dimension of the
FIRST EXAMPLE of the batch (its channel count), not the batch's example
count: on a batch of 2 examples with 3 channels each, the meters
accumulate weight 3 although the batch holds 2 examples. -/
theorem train_meter_weight_mismatch :
    ((train (fun _ => [[9, 8, 7, 6, 5], [9, 8, 7, 6, 5]]) (fun _ _ => 1)
        false [([[1, 2, 3], [4, 5, 6]], [0, 0])]).map
      fun s => (s.losses.count, s.top1.count)) = some (3, 3) ∧
    ([[1, 2, 3], [4, 5, 6]] : List Image).length = 2 ∧ (3 : ℚ) ≠ 2 := by
  refine ⟨by with_unfolding_all decide, rfl, by norm_num⟩

/-! ### Progress display -/

/-- Padding a string to its own length adds nothing. -/
theorem padLeft_self (c : Char) (s : String) : padLeft c s.length s = s := by
  unfold padLeft
  rw [Nat.sub_self]
  rfl

/-- **C5 counterexample.** With `total = 100` and `batch = 7` the
rendered batch token is `[  7/100]`: space-padded, not zero-padded
(`[007/100]`). -/
theorem progress_display_not_zero_padded :
    ProgressMeter.display ⟨100, [], ""⟩ 7 = "[  7/100]" ∧
    ProgressMeter.display ⟨100, [], ""⟩ 7 ≠
      "" ++ "[" ++ padLeft '0' (toString 100).length (toString 7) ++ "/" ++
        toString 100 ++ "]" := by
  with_unfolding_all decide

/-- **C5 (amended).** `display(batch)` produces the prefix, then
`[batch/total]` with the batch index right-aligned and space-padded to
the digit width of `total`, then the tab-separated renderings of each
meter in order; in the spec's scenario (total 100, batch 7, meters
`Loss` with average 0.25 and `Acc@1` with average 91.3, both formatted
`:3.2f`) the line is `[  7/100]\tLoss 0.25\tAcc@1 91.30`, which contains
`[  7/100]`, `Loss 0.25` and `Acc@1 91.30`. -/
theorem progress_display_line :
    (∀ (pfxStr : String) (total batch : Nat) (meters : List AverageMeter),
      ProgressMeter.display ⟨total, meters, pfxStr⟩ batch =
        String.intercalate "\t"
          ((pfxStr ++ ("[" ++ padLeft ' ' (toString total).length (toString batch) ++
            "/" ++ toString total ++ "]")) :: meters.map AverageMeter.render)) ∧
    (ProgressMeter.display
        ⟨100,
         [{ name := "Loss", fmt := ⟨3, 2⟩, val := 0, avg := 1/4, sum := 0,
            count := 0 },
          { name := "Acc@1", fmt := ⟨3, 2⟩, val := 0, avg := 913/10, sum := 0,
            count := 0 }],
         ""⟩ 7 = "[  7/100]\tLoss 0.25\tAcc@1 91.30") ∧
    "[  7/100]".data <:+: "[  7/100]\tLoss 0.25\tAcc@1 91.30".data ∧
    "Loss 0.25".data <:+: "[  7/100]\tLoss 0.25\tAcc@1 91.30".data ∧
    "Acc@1 91.30".data <:+: "[  7/100]\tLoss 0.25\tAcc@1 91.30".data := by
  refine ⟨?_, ?_, ?_, ?_, ?_⟩
  · intro pfxStr total batch meters
    unfold ProgressMeter.display batchFmtstr
    simp only [Nat.div_one, formatD]
    rw [padLeft_self]
  · with_unfolding_all decide
  · with_unfolding_all decide
  · with_unfolding_all decide
  · with_unfolding_all decide

/-! ### Invalid-argument behaviour of `accuracy` -/

/-- The initial value is below a `foldl Nat.max`. -/
theorem le_foldl_max (l : List Nat) : ∀ b, b ≤ l.foldl Nat.max b := by
  induction l with
  | nil => intro b; exact le_refl b
  | cons c t ih =>
    intro b
    exact le_trans (Nat.le_max_left b c) (ih (Nat.max b c))

/-- Every member is below a `foldl Nat.max`. -/
theorem mem_le_foldl_max (l : List Nat) (a : Nat) (h : a ∈ l) :
    ∀ b, a ≤ l.foldl Nat.max b := by
  induction l with
  | nil => cases h
  | cons c t ih =>
    intro b
    rcases List.mem_cons.mp h with rfl | hmem
    · exact le_trans (Nat.le_max_right b a) (le_foldl_max t (Nat.max b a))
    · exact ih hmem (Nat.max b c)

/-- **C6.** When some requested `k` exceeds the class count `C` (the
length of every score row), `accuracy` signals an error (`torch.topk`
raises) instead of returning a result. -/
theorem accuracy_invalid_k (output : List (List ℚ)) (target : List Nat)
    (ks : List Nat) (C k : Nat)
    (hrows : ∀ row ∈ output, row.length = C) (hne : output ≠ [])
    (hk : k ∈ ks) (hkC : C < k) :
    accuracy output target ks = none := by
  unfold accuracy
  rw [if_neg]
  rintro ⟨-, hall, -, -⟩
  obtain ⟨r, hr⟩ := List.exists_mem_of_ne_nil output hne
  have hmax : k ≤ ks.foldl Nat.max 0 := mem_le_foldl_max ks k hk 0
  have hrow := List.all_eq_true.mp hall r hr
  simp only [decide_eq_true_eq] at hrow
  rw [hrows r hr] at hrow
  omega

/-- Witness for C6: one score row of length 2 with `k = 3` requested. -/
theorem accuracy_invalid_k_witness :
    accuracy [[(1 : ℚ), 2]] [0] [3] = none :=
  accuracy_invalid_k [[(1 : ℚ), 2]] [0] [3] 2 3
    (by intro row hrow; simp at hrow; rw [hrow]; rfl)
    (by simp) (by simp) (by omega)

/-! ### The correctness of `accuracy` -/

/-- A `foldl Nat.max` stays below any common upper bound. -/
theorem foldl_max_le (l : List Nat) (c : Nat) (h : ∀ a ∈ l, a ≤ c) :
    ∀ b, b ≤ c → l.foldl Nat.max b ≤ c := by
  induction l with
  | nil => intro b hb; exact hb
  | cons a t ih =>
    intro b hb
    exact ih (fun x hx => h x (List.mem_cons_of_mem _ hx)) (Nat.max b a)
      (max_le hb (h a (List.mem_cons_self _ _)))

/-- The sorted index list of a row is a permutation of all class
indices of that row. -/
theorem sortedIdx_perm_range (row : List ℚ) :
    List.Perm (sortedIdx row) (List.range row.length) := by
  unfold sortedIdx
  have h1 := (List.mergeSort_perm (row.enum)
    (fun a b => decide (b.2 ≤ a.2))).map Prod.fst
  rw [List.enum_map_fst] at h1
  exact h1

/-- The sorted index list of a row has no duplicates. -/
theorem sortedIdx_nodup (row : List ℚ) : (sortedIdx row).Nodup :=
  (sortedIdx_perm_range row).nodup_iff.mpr (List.nodup_range _)

/-- In the first `k` sorted indices, a label is counted once if present,
never twice. -/
theorem count_take_topk (row : List ℚ) (k : Nat) (t : Nat) :
    ((sortedIdx row).take k).count t =
      if t ∈ topkClasses row k then 1 else 0 := by
  by_cases h : t ∈ topkClasses row k
  · rw [if_pos h]
    exact List.count_eq_one_of_mem
      ((List.take_sublist _ _).nodup (sortedIdx_nodup row)) h
  · rw [if_neg h]
    exact List.count_eq_zero_of_not_mem h

/-- Summing an indicator over a list counts the satisfying elements. -/
theorem sum_map_ite_count {α : Type} (l : List α) (p : α → Prop)
    [DecidablePred p] :
    (l.map fun x => if p x then (1 : Nat) else 0).sum =
      l.countP fun x => decide (p x) := by
  induction l with
  | nil => rfl
  | cons a t ih =>
    simp only [List.map_cons, List.sum_cons, List.countP_cons, ih]
    by_cases h : p a <;> simp [h] <;> omega

/-- Central characterization: on well-shaped inputs, `accuracy` returns,
for each requested `k`, the number of examples whose label is among the
`k` highest-scoring classes times `100 / batch_size`. -/
theorem accuracy_eq_hits (output : List (List ℚ)) (target : List Nat)
    (ks : List Nat)
    (hlen : output.length = target.length) (hne : target.length ≠ 0)
    (hkne : ks ≠ [])
    (hrows : ∀ row ∈ output, ks.foldl Nat.max 0 ≤ row.length) :
    accuracy output target ks =
      some (ks.map fun k =>
        (topkHits output target k : ℚ) * (100 / (target.length : ℚ))) := by
  unfold accuracy
  rw [if_pos ⟨hkne, List.all_eq_true.mpr
      (fun r hr => decide_eq_true (hrows r hr)), hlen, hne⟩]
  dsimp only
  congr 1
  apply List.map_congr_left
  intro k hkmem
  have hkmax : k ≤ ks.foldl Nat.max 0 := mem_le_foldl_max ks k hkmem 0
  have hsum : (List.map (fun pt : List Nat × Nat => (pt.1.take k).count pt.2)
      ((output.map fun row =>
        (sortedIdx row).take (ks.foldl Nat.max 0)).zip target)).sum =
      topkHits output target k := by
    rw [List.zip_map_left, List.map_map]
    have hpt : ∀ pt ∈ output.zip target,
        ((fun pt : List Nat × Nat => (pt.1.take k).count pt.2) ∘
          Prod.map (fun row => (sortedIdx row).take (ks.foldl Nat.max 0)) id) pt =
        if pt.2 ∈ topkClasses pt.1 k then (1 : Nat) else 0 := by
      intro pt _
      show ((((sortedIdx pt.1).take (ks.foldl Nat.max 0)).take k).count pt.2) = _
      rw [List.take_take, min_eq_left hkmax]
      exact count_take_topk pt.1 k pt.2
    rw [List.map_congr_left hpt,
      sum_map_ite_count (output.zip target)
        (fun pt => pt.2 ∈ topkClasses pt.1 k)]
    rfl
  rw [hsum]

/-- **C1.** On a batch of `N` score rows over `C` classes with labels in
`[0, C)` and nonempty `ks` of positive `k ≤ C`, `accuracy` returns one
entry per `k`, each equal to 100 times the fraction of examples whose
label is among the `k` highest-scoring classes (under the consistent
tie-break of `sortedIdx`), and each entry lies in `[0, 100]`. -/
theorem accuracy_topk_percentages (output : List (List ℚ))
    (target : List Nat) (ks : List Nat) (N C : Nat)
    (hN : output.length = N) (hT : target.length = N) (hN0 : 0 < N)
    (hrows : ∀ row ∈ output, row.length = C)
    (hlab : ∀ t ∈ target, t < C)
    (hks : ∀ k ∈ ks, 0 < k ∧ k ≤ C) (hkne : ks ≠ []) :
    ∃ l, accuracy output target ks = some l ∧ l.length = ks.length ∧
      ∀ i, i < ks.length →
        l.getD i 0 = 100 * (topkHits output target (ks.getD i 0) : ℚ) / N ∧
        0 ≤ l.getD i 0 ∧ l.getD i 0 ≤ 100 := by
  have hrows' : ∀ row ∈ output, ks.foldl Nat.max 0 ≤ row.length := by
    intro r hr
    rw [hrows r hr]
    exact foldl_max_le ks C (fun a ha => (hks a ha).2) 0 (Nat.zero_le C)
  have heq := accuracy_eq_hits output target ks
    (by rw [hN, hT]) (by rw [hT]; omega) hkne hrows'
  refine ⟨_, heq, by simp, ?_⟩
  intro i hi
  have hil : i < (ks.map fun k =>
      (topkHits output target k : ℚ) * (100 / (target.length : ℚ))).length := by
    simpa using hi
  rw [List.getD_eq_getElem _ _ hil, List.getElem_map,
    List.getD_eq_getElem _ _ hi]
  have hNpos : (0 : ℚ) < (N : ℚ) := by exact_mod_cast hN0
  have hhits : topkHits output target ks[i] ≤ N := by
    unfold topkHits
    calc (output.zip target).countP _ ≤ (output.zip target).length :=
          List.countP_le_length _
      _ = N := by rw [List.length_zip, hN, hT, min_self]
  have hTcast : ((target.length : ℚ)) = (N : ℚ) := by exact_mod_cast hT
  refine ⟨?_, ?_, ?_⟩
  · simp only [hTcast]; ring
  · positivity
  · simp only [hTcast]
    rw [← mul_div_assoc, div_le_iff hNpos]
    have : (topkHits output target ks[i] : ℚ) ≤ (N : ℚ) := by
      exact_mod_cast hhits
    nlinarith

/-- Witness for C1: two rows over two classes, `ks = [1, 2]`. -/
theorem accuracy_topk_percentages_witness :
    ∃ l, accuracy [[(9 : ℚ)/10, 1/10], [8/10, 2/10]] [1, 0] [1, 2] = some l ∧
      l.length = 2 ∧
      ∀ i, i < ([1, 2] : List Nat).length →
        l.getD i 0 = 100 *
          (topkHits [[(9 : ℚ)/10, 1/10], [8/10, 2/10]] [1, 0]
            (([1, 2] : List Nat).getD i 0) : ℚ) / 2 ∧
        0 ≤ l.getD i 0 ∧ l.getD i 0 ≤ 100 := by
  obtain ⟨l, h1, h2, h3⟩ := accuracy_topk_percentages
    [[(9 : ℚ)/10, 1/10], [8/10, 2/10]] [1, 0] [1, 2] 2 2
    rfl rfl (by omega)
    (by with_unfolding_all decide)
    (by decide) (by decide) (by simp)
  exact ⟨l, h1, h2, fun i hi => by exact_mod_cast h3 i hi⟩

/-- **C7.** For a fixed batch and `k₁ < k₂` both within the class count,
the top-`k₁` accuracy is at most the top-`k₂` accuracy. -/
theorem accuracy_monotone_k (output : List (List ℚ)) (target : List Nat)
    (k₁ k₂ : Nat)
    (hlen : output.length = target.length) (hne : target.length ≠ 0)
    (hrows : ∀ row ∈ output, k₂ ≤ row.length) (hk : k₁ < k₂) :
    ∃ a b, accuracy output target [k₁, k₂] = some [a, b] ∧ a ≤ b := by
  have hrows' : ∀ row ∈ output, [k₁, k₂].foldl Nat.max 0 ≤ row.length := by
    intro r hr
    have hr2 := hrows r hr
    show Nat.max (Nat.max 0 k₁) k₂ ≤ r.length
    exact Nat.max_le.mpr ⟨Nat.max_le.mpr ⟨Nat.zero_le _,
      le_trans (le_of_lt hk) hr2⟩, hr2⟩
  have heq := accuracy_eq_hits output target [k₁, k₂] hlen hne (by simp) hrows'
  refine ⟨(topkHits output target k₁ : ℚ) * (100 / (target.length : ℚ)),
          (topkHits output target k₂ : ℚ) * (100 / (target.length : ℚ)),
          by rw [heq]; rfl, ?_⟩
  have hmono : topkHits output target k₁ ≤ topkHits output target k₂ := by
    unfold topkHits
    apply List.countP_mono_left
    intro pt _ hp
    simp only [decide_eq_true_eq] at hp ⊢
    unfold topkClasses at hp ⊢
    have hk' : (sortedIdx pt.1).take k₁ =
        ((sortedIdx pt.1).take k₂).take k₁ := by
      rw [List.take_take, min_eq_left (le_of_lt hk)]
    rw [hk'] at hp
    exact List.take_subset _ _ hp
  apply mul_le_mul_of_nonneg_right
  · exact_mod_cast hmono
  · positivity

/-- Witness for C7: `k₁ = 1 < k₂ = 2` on a two-class batch. -/
theorem accuracy_monotone_k_witness :
    ∃ a b, accuracy [[(9 : ℚ)/10, 1/10], [8/10, 2/10]] [1, 0] [1, 2] =
      some [a, b] ∧ a ≤ b :=
  accuracy_monotone_k [[(9 : ℚ)/10, 1/10], [8/10, 2/10]] [1, 0] 1 2
    rfl (by simp)
    (by with_unfolding_all decide)
    (by omega)

/-- **C8.** With `k = C` (the class count) on a nonempty batch with
labels in `[0, C)`, the top-`C` accuracy is exactly 100. -/
theorem accuracy_k_eq_classes (output : List (List ℚ)) (target : List Nat)
    (N C : Nat)
    (hN : output.length = N) (hT : target.length = N) (hN0 : 0 < N)
    (hrows : ∀ row ∈ output, row.length = C)
    (hlab : ∀ t ∈ target, t < C) :
    accuracy output target [C] = some [100] := by
  have heq := accuracy_eq_hits output target [C]
    (by rw [hN, hT]) (by rw [hT]; omega) (by simp)
    (by intro r hr; rw [hrows r hr]; simp [List.foldl])
  rw [heq]
  have hfull : topkHits output target C = N := by
    unfold topkHits
    rw [List.countP_eq_length.mpr ?_, List.length_zip, hN, hT, min_self]
    intro pt hpt
    have h1 : pt.1 ∈ output := (List.of_mem_zip hpt).1
    have h2 : pt.2 ∈ target := (List.of_mem_zip hpt).2
    have hlen1 : pt.1.length = C := hrows _ h1
    have hperm := sortedIdx_perm_range pt.1
    have hwhole : topkClasses pt.1 C = sortedIdx pt.1 := by
      unfold topkClasses
      apply List.take_of_length_le
      rw [hperm.length_eq, List.length_range, hlen1]
    simp only [decide_eq_true_eq]
    rw [hwhole, hperm.mem_iff, List.mem_range, hlen1]
    exact hlab _ h2
  have hNne : (N : ℚ) ≠ 0 := Nat.cast_ne_zero.mpr hN0.ne'
  rw [List.map_cons, List.map_nil, hfull, hT]
  congr 2
  field_simp

/-- Witness for C8: two classes, `k = 2`, both labels valid. -/
theorem accuracy_k_eq_classes_witness :
    accuracy [[(9 : ℚ)/10, 1/10], [8/10, 2/10]] [1, 0] [2] = some [100] :=
  accuracy_k_eq_classes [[(9 : ℚ)/10, 1/10], [8/10, 2/10]] [1, 0] 2 2
    rfl rfl (by omega)
    (by with_unfolding_all decide)
    (by decide)

end SDN
